import Mathlib

/-!
# Verification of the chaos-agents core engine

Shallow embedding of the reversible-action execution engine from
`crates/chaos-core` (orchestrator, rollback log, events, reports) together
with the skill-level helpers needed by the claims:
`crates/chaos-k8s/src/skills/pod_kill.rs` (rollback),
`crates/chaos-db/src/skills/lock_utils.rs` (lock-mode validation) and
`crates/chaos-server/src/skills/disk_fill.rs` (size parsing).

Modelling conventions:
* Async side effects (agent initialize/discover, skill execute/rollback,
  context builds, pod listings) are modelled by oracles on the agent
  behaviour: each call site reads the outcome the environment would have
  produced for that call.  Call sites that the source reaches repeatedly
  are indexed by a call counter.
* Wall-clock data (UUIDs, timestamps, durations) carried by the source
  structures but never branched on by the orchestrator is dropped or kept
  as an opaque `Nat` id.
* `serde_yaml::Value` blobs that the engine treats as opaque
  (`RollbackHandle.undo_state`, `SkillInvocation.params`,
  `ExperimentConfig.target_config`) are modelled as `String`.
* Event sinks: `Orchestrator::emit` forwards each event to every sink in
  order, so the per-sink event sequence equals the emission sequence; the
  model records that single sequence.
* Rust `str::to_uppercase` is modelled per-character (`Char.toUpper`),
  which agrees with the source on all ASCII input (the only input the
  compared constants contain).
-/

/-- `TargetDomain` from `chaos-core/src/skill.rs`. -/
inductive TargetDomain
  | database
  | kubernetes
  | server
deriving DecidableEq, Repr

/-- `Display for TargetDomain` (`skill.rs`). -/
def TargetDomain.display : TargetDomain → String
  | .database => "database"
  | .kubernetes => "kubernetes"
  | .server => "server"

/-- `ChaosError` from `chaos-core/src/error.rs`; `anyhow::Error` payloads are
modelled by their display string. -/
inductive ChaosErr
  | skillExecution (skillName : String) (source : String)
  | rollbackFailed (skillName : String) (source : String)
  | config (msg : String)
  | connection (msg : String)
  | discovery (msg : String)
  | timeout (durationMs : Nat)
  | other (msg : String)
deriving DecidableEq, Repr

/-- The `thiserror` display formats of `ChaosError` (`error.rs`).
`Other` is `#[error(transparent)]`. -/
def ChaosErr.display : ChaosErr → String
  | .skillExecution n s => "Skill execution failed: " ++ n ++ " -- " ++ s
  | .rollbackFailed n s => "Rollback failed: " ++ n ++ " -- " ++ s
  | .config m => "Configuration error: " ++ m
  | .connection m => "Connection error: " ++ m
  | .discovery m => "Discovery failed: " ++ m
  | .timeout d => "Experiment timeout after " ++ toString d ++ "ms"
  | .other m => m

/-- `RollbackHandle` (`chaos-core/src/rollback.rs`): the UUID is an opaque
`Nat`, `created_at` is dropped, `undo_state` is the opaque serialized blob. -/
structure RollbackHandle where
  id : Nat
  skillName : String
  undoState : String
deriving DecidableEq, Repr

/-- `SkillInvocation` (`chaos-core/src/experiment.rs`). -/
structure SkillInvocation where
  skillName : String
  params : String
  count : Nat
deriving DecidableEq, Repr

/-- `ExperimentConfig` (`chaos-core/src/experiment.rs`); `duration` in
milliseconds. -/
structure ExperimentConfig where
  name : String
  target : TargetDomain
  targetConfig : String
  skills : List SkillInvocation
  durationMs : Nat
  parallel : Bool
  resourceFilters : List String
deriving DecidableEq, Repr

/-- `SkillExecutionRecord` (`chaos-core/src/report.rs`); durations dropped. -/
structure SkillExecutionRecord where
  skillName : String
  success : Bool
  error : Option String
deriving DecidableEq, Repr

/-- `RollbackStepRecord` (`chaos-core/src/report.rs`); durations dropped. -/
structure RollbackStepRecord where
  skillName : String
  success : Bool
  error : Option String
deriving DecidableEq, Repr

/-- `ExperimentEvent` (`chaos-core/src/event.rs`) for a single experiment:
the `experiment_id` (identical on every event of one run) and timestamps
are dropped. -/
inductive Event
  | started
  | skillExecuted (skillName : String) (success : Bool)
  | durationWaitBegin
  | rollbackStarted
  | rollbackStepCompleted (skillName : String) (success : Bool)
  | completed
  | failed (error : String)
deriving DecidableEq, Repr

/-- Outcome of one `build_context` + `execute` pair in the execute loop
(`orchestrator.rs` 196-237). -/
inductive ExecCallResult
  | ctxErr (e : ChaosErr)
  | execOk (h : RollbackHandle)
  | execErr (e : ChaosErr)
deriving DecidableEq, Repr

def ExecCallResult.isOk : ExecCallResult → Bool
  | .execOk _ => true
  | _ => false

def ExecCallResult.isExecFailure : ExecCallResult → Bool
  | .execErr _ => true
  | _ => false

/-- What the orchestrator observes of one registered agent during a run:
its domain, the outcomes of `initialize` and `discover`, its static skill
set, each skill's `validate_params`, and oracles for the repeated
`build_context`/`execute`/`rollback` calls (indexed by call counter). -/
structure AgentBehavior where
  domain : TargetDomain
  initErr : Option ChaosErr
  discoverRes : Except ChaosErr (List (String × String))
  hasSkill : String → Bool
  validateErr : SkillInvocation → Option ChaosErr
  execCall : Nat → ExecCallResult
  rbCtxErr : Nat → Option ChaosErr
  rbCall : Nat → RollbackHandle → Option ChaosErr

/-- State produced by the execute phase: `result` is `none` for `Ok(())`,
`log` the handles pushed onto the rollback log, `records` and `events`
in emission order, `calls` the number of `build_context`+`execute` pairs
performed. -/
structure ExecPhase where
  result : Option ChaosErr
  log : List RollbackHandle
  records : List SkillExecutionRecord
  events : List Event
  calls : Nat
deriving Repr

/-- The `for _ in 0..invocation.count` repetition loop of
`Orchestrator::execute_skills` (`orchestrator.rs` 196-237), starting at
global call index `n`.  A `build_context` failure propagates with `?`
(no record, no event); an `execute` failure is recorded, emitted and
wrapped in `ChaosError::SkillExecution`; a success pushes the handle. -/
def runReps (a : AgentBehavior) (skillName : String) :
    Nat → Nat → ExecPhase
  | 0, n => ⟨none, [], [], [], n⟩
  | reps + 1, n =>
    match a.execCall n with
    | .ctxErr e => ⟨some e, [], [], [], n + 1⟩
    | .execOk h =>
      let p := runReps a skillName reps (n + 1)
      ⟨p.result, h :: p.log,
        ⟨skillName, true, none⟩ :: p.records,
        .skillExecuted skillName true :: p.events, p.calls⟩
    | .execErr e =>
      ⟨some (.skillExecution skillName e.display), [],
        [⟨skillName, false, some e.display⟩],
        [.skillExecuted skillName false], n + 1⟩

/-- `Orchestrator::execute_skills` (`orchestrator.rs` 181-241): walk the
invocation list; unknown skill or failed `validate_params` aborts with the
error; otherwise run the repetition loop and stop at its first failure. -/
def execSkills (a : AgentBehavior) : List SkillInvocation → Nat → ExecPhase
  | [], n => ⟨none, [], [], [], n⟩
  | inv :: rest, n =>
    if a.hasSkill inv.skillName then
      match a.validateErr inv with
      | some e => ⟨some e, [], [], [], n⟩
      | none =>
        let p := runReps a inv.skillName inv.count n
        match p.result with
        | some e => ⟨some e, p.log, p.records, p.events, p.calls⟩
        | none =>
          let q := execSkills a rest p.calls
          ⟨q.result, p.log ++ q.log, p.records ++ q.records,
            p.events ++ q.events, q.calls⟩
    else
      ⟨some (.config ("Unknown skill: " ++ inv.skillName)), [], [], [], n⟩

/-- State produced by the rollback phase: step records, emitted events and
the handles for which `skill.rollback` was actually invoked, in call
order. -/
structure RollbackPhase where
  records : List RollbackStepRecord
  events : List Event
  invoked : List RollbackHandle
deriving Repr

/-- `Orchestrator::rollback_experiment` (`orchestrator.rs` 244-309) on the
snapshotted handle list (most recent first), `n` the loop index.  A missing
skill or a failed context build records a failed step and `continue`s
(no event, `rollback` not invoked); otherwise `rollback` is invoked and the
step is recorded and emitted with its success flag. -/
def rollbackPhase (a : AgentBehavior) : List RollbackHandle → Nat → RollbackPhase
  | [], _ => ⟨[], [], []⟩
  | h :: rest, n =>
    if a.hasSkill h.skillName then
      match a.rbCtxErr n with
      | some e =>
        let p := rollbackPhase a rest (n + 1)
        ⟨⟨h.skillName, false, some ("context build failed: " ++ e.display)⟩ :: p.records,
          p.events, p.invoked⟩
      | none =>
        let res := a.rbCall n h
        let ok := res.isNone
        let p := rollbackPhase a rest (n + 1)
        ⟨⟨h.skillName, ok, res.map ChaosErr.display⟩ :: p.records,
          .rollbackStepCompleted h.skillName ok :: p.events, h :: p.invoked⟩
    else
      let p := rollbackPhase a rest (n + 1)
      ⟨⟨h.skillName, false, some "skill not found"⟩ :: p.records,
        p.events, p.invoked⟩

/-- `ExperimentReport` (`chaos-core/src/report.rs`); ids and timings
dropped. -/
structure Report where
  experimentName : String
  targetDomain : TargetDomain
  status : String
  discoveredResources : List (String × String)
  skillExecutions : List SkillExecutionRecord
  rollbackSteps : List RollbackStepRecord
deriving DecidableEq, Repr

/-- Everything observable from one `run_experiment` call: the returned
value, the event sequence delivered to every sink, whether the soak branch
ran (`WaitingDuration` status, `DurationWaitBegin` event and the sleep are
one `if`-block, `orchestrator.rs` 112-121), the rollback-log contents at
rollback time, and the handles whose `rollback` was invoked. -/
structure RunOutcome where
  result : Except ChaosErr Report
  events : List Event
  soak : Bool
  log : List RollbackHandle
  invoked : List RollbackHandle
  execRecords : List SkillExecutionRecord
  rollbackRecords : List RollbackStepRecord
deriving Repr

/-- `Orchestrator::run_experiment` (`orchestrator.rs` 47-179) specialised
to the agent resolved for the config's target. -/
def runWithAgent (a : AgentBehavior) (config : ExperimentConfig) : RunOutcome :=
  match a.initErr with
  | some e => ⟨.error e, [.started], false, [], [], [], []⟩
  | none =>
    match a.discoverRes with
    | .error e => ⟨.error e, [.started], false, [], [], [], []⟩
    | .ok discovered =>
      let p := execSkills a config.skills 0
      let midEvents : List Event :=
        match p.result with
        | some e => [.failed e.display]
        | none => [.durationWaitBegin]
      let rb := rollbackPhase a p.log.reverse 0
      let status : String :=
        match p.result with
        | some e => "failed: " ++ e.display
        | none => "completed"
      ⟨.ok ⟨config.name, config.target, status, discovered, p.records, rb.records⟩,
        [.started] ++ p.events ++ midEvents ++ [.rollbackStarted] ++ rb.events ++ [.completed],
        p.result.isNone, p.log, rb.invoked, p.records, rb.records⟩

/-- `HashMap::get` on the agent map, modelled on an association list. -/
def hmGet (m : List (TargetDomain × AgentBehavior)) (k : TargetDomain) :
    Option AgentBehavior :=
  (m.find? fun p => decide (p.1 = k)).map Prod.snd

/-- `HashMap::insert`: replace the value if the key is present, otherwise
add the entry. -/
def hmInsert (m : List (TargetDomain × AgentBehavior)) (k : TargetDomain)
    (v : AgentBehavior) : List (TargetDomain × AgentBehavior) :=
  if m.any (fun p => decide (p.1 = k)) then
    m.map fun p => if p.1 = k then (k, v) else p
  else
    m ++ [(k, v)]

/-- `Orchestrator` (`orchestrator.rs` 16-29): the agent map.  The
`experiments` store and the sink list do not influence the run semantics
modelled here (sinks all receive the same sequence). -/
structure Orchestrator where
  agents : List (TargetDomain × AgentBehavior)

def Orchestrator.new : Orchestrator := ⟨[]⟩

/-- `Orchestrator::register_agent` (`orchestrator.rs` 31-34): keyed by
`agent.domain()`. -/
def registerAgent (o : Orchestrator) (a : AgentBehavior) : Orchestrator :=
  ⟨hmInsert o.agents a.domain a⟩

/-- `Orchestrator::run_experiment` (`orchestrator.rs` 47-179): agent lookup
by `config.target` fails with a `Configuration` error before any event is
emitted. -/
def runExperiment (o : Orchestrator) (config : ExperimentConfig) : RunOutcome :=
  match hmGet o.agents config.target with
  | none =>
    ⟨.error (.config ("No agent registered for target: " ++ config.target.display)),
      [], false, [], [], [], []⟩
  | some a => runWithAgent a config

/-! ## pod_kill rollback (`chaos-k8s/src/skills/pod_kill.rs` 147-194)

Modelled after the successful downcast and undo-state parse (the handle
under consideration was produced by `PodKillSkill::execute`, so its undo
state is well formed).  Effects: one tracing line per killed pod; the pod
listing used to verify recovery of owned pods is an oracle indexed by the
loop position.  The function returns `Ok(())` on every path of the loop. -/

/-- `KilledPodInfo` (`pod_kill.rs` 35-42). -/
structure KilledPodInfo where
  name : String
  ns : String
  hasOwner : Bool
  ownerKind : Option String
  ownerName : Option String
deriving DecidableEq, Repr

inductive LogLevel
  | info
  | warn
  | error
deriving DecidableEq, Repr

/-- One tracing line: level, the pod it mentions, and the message. -/
structure LogLine where
  level : LogLevel
  pod : String
  msg : String
deriving DecidableEq, Repr

def podKillWarnMsg : String :=
  "Pod had no owner; cannot auto-recover. Manual intervention may be needed."

/-- The per-pod loop of `PodKillSkill::rollback` (`pod_kill.rs` 158-191):
owned pods get an info line (or an error line when the verification
listing fails); ownerless pods get a warning. -/
def podKillRollbackLogs (listResult : Nat → Except String Nat) :
    Nat → List KilledPodInfo → List LogLine
  | _, [] => []
  | n, p :: rest =>
    (if p.hasOwner then
      match listResult n with
      | .ok _ => ⟨.info, p.name, "Verified replacement pods are running"⟩
      | .error _ => ⟨.error, p.name, "Failed to verify pod recovery"⟩
    else ⟨.warn, p.name, podKillWarnMsg⟩)
      :: podKillRollbackLogs listResult (n + 1) rest

/-- `PodKillSkill::rollback` body: the tracing lines and the returned
result (`Ok(())` at `pod_kill.rs` 193, reached on every loop path). -/
def podKillRollback (listResult : Nat → Except String Nat)
    (undo : List KilledPodInfo) : List LogLine × Except ChaosErr Unit :=
  (podKillRollbackLogs listResult 0 undo, .ok ())

/-! ## Lock-mode validation (`chaos-db/src/skills/lock_utils.rs` 8-35,
`chaos-db/src/skills/table_lock.rs` 48-53) -/

/-- Per-character model of `str::to_uppercase` (exact on ASCII input). -/
def asciiUpper (s : String) : String := ⟨s.data.map Char.toUpper⟩

/-- `VALID_TABLE_LOCK_MODES` (`lock_utils.rs` 8-17). -/
def VALID_TABLE_LOCK_MODES : List String :=
  ["ACCESS SHARE", "ROW SHARE", "ROW EXCLUSIVE", "SHARE UPDATE EXCLUSIVE",
    "SHARE", "SHARE ROW EXCLUSIVE", "EXCLUSIVE", "ACCESS EXCLUSIVE"]

/-- `validate_lock_mode` (`lock_utils.rs` 26-35); the error message's
valid-modes listing is elided. -/
def validate_lock_mode (mode : String) : Except ChaosErr Unit :=
  if VALID_TABLE_LOCK_MODES.contains (asciiUpper mode) then .ok ()
  else .error (.config ("Invalid lock mode '" ++ mode ++ "'"))

/-- `TableLockParams` after deserialization (`table_lock.rs` 17-27);
`lock_mode` defaults to `"ACCESS EXCLUSIVE"` when absent. -/
structure TableLockParams where
  tables : List String
  lockMode : String
deriving DecidableEq, Repr

def default_lock_mode : String := "ACCESS EXCLUSIVE"

/-- `TableLockSkill::validate_params` (`table_lock.rs` 48-53) on
deserializable params: it is exactly `validate_lock_mode` on the
(possibly defaulted) `lock_mode`. -/
def tableLockValidateParams (p : TableLockParams) : Except ChaosErr Unit :=
  validate_lock_mode p.lockMode

/-- Case-insensitive (ASCII) string comparison, the relation the claim
speaks about. -/
def eqCaseInsensitive (s t : String) : Prop := asciiUpper s = asciiUpper t

instance : ∀ s t, Decidable (eqCaseInsensitive s t) := fun s t =>
  inferInstanceAs (Decidable (asciiUpper s = asciiUpper t))

/-! ## disk_fill size parsing (`chaos-server/src/skills/disk_fill.rs`
19-24, 126-139) -/

/-- `default_size` (`disk_fill.rs` 19-21): the serde default for the
`size` parameter. -/
def default_size : String := "1GB"

/-- Numeric value of a digit list, most significant first. -/
def digitsVal (l : List Char) : Nat :=
  l.foldl (fun acc c => acc * 10 + (c.toNat - 48)) 0

/-- Rust `u64::from_str`: an optional leading `+`, then one or more ASCII
digits, value below `2^64`; anything else is an error. -/
def parseU64 (s : String) : Option Nat :=
  let l := if s.data.head? = some '+' then s.data.tail else s.data
  if l.isEmpty then none
  else if l.all Char.isDigit && decide (digitsVal l < 2 ^ 64) then
    some (digitsVal l)
  else none

/-- Rust `str::ends_with`, on character lists. -/
def strEndsWith (s t : String) : Bool :=
  t.data.reverse.isPrefixOf s.data.reverse

/-- The string left after `strip_suffix` removes `k` characters. -/
def strDropRight (s : String) (k : Nat) : String :=
  ⟨s.data.take (s.data.length - k)⟩

/-- `parse_size_mb` (`disk_fill.rs` 126-139): suffix checks in source
order (`GB`, `MB`, `G`, `M`) on the uppercased input; `unwrap_or(1)` for
the gigabyte forms, `unwrap_or(100)` for the megabyte forms, `100` when no
suffix matches. -/
def parse_size_mb (size : String) : Nat :=
  let s := asciiUpper size
  if strEndsWith s "GB" then (parseU64 (strDropRight s 2)).getD 1 * 1024
  else if strEndsWith s "MB" then (parseU64 (strDropRight s 2)).getD 100
  else if strEndsWith s "G" then (parseU64 (strDropRight s 1)).getD 1 * 1024
  else if strEndsWith s "M" then (parseU64 (strDropRight s 1)).getD 100
  else 100

/-! ## Event-order grammars (claim C5) -/

def Event.isSkillExecuted : Event → Bool
  | .skillExecuted _ _ => true
  | _ => false

def Event.isRollbackStep : Event → Bool
  | .rollbackStepCompleted _ _ => true
  | _ => false

/-- Matches `RollbackStarted, (RollbackStepCompleted)*, Completed`. -/
def eventTailMatch : List Event → Bool
  | .rollbackStarted :: r =>
    match r.dropWhile Event.isRollbackStep with
    | [.completed] => true
    | _ => false
  | _ => false

/-- Matches `(SkillExecuted)*, (Failed|DurationWaitBegin),
RollbackStarted, (RollbackStepCompleted)*, Completed`. -/
def eventMidMatch (l : List Event) : Bool :=
  match l.dropWhile Event.isSkillExecuted with
  | .failed _ :: r => eventTailMatch r
  | .durationWaitBegin :: r => eventTailMatch r
  | _ => false

/-- The per-experiment event order asserted by the claim, read with its
parenthetical (`Completed` last, `Failed` optionally right before it):
`Started, (SkillExecuted)*, DurationWaitBegin?, (RollbackStepCompleted)*,
Failed?, Completed`. -/
def claimedEventOrder (evs : List Event) : Bool :=
  match evs with
  | .started :: rest =>
    let r1 := rest.dropWhile Event.isSkillExecuted
    let r2 := match r1 with
      | .durationWaitBegin :: t => t
      | _ => r1
    let r3 := r2.dropWhile Event.isRollbackStep
    let r4 := match r3 with
      | .failed _ :: t => t
      | _ => r3
    match r4 with
    | [.completed] => true
    | _ => false
  | _ => false

/-- The event order the code produces: no events when the agent lookup
fails; `Started` alone when `initialize` or `discover` fails; otherwise
`Started, (SkillExecuted)*, (Failed|DurationWaitBegin), RollbackStarted,
(RollbackStepCompleted)*, Completed` (`Failed` appears exactly when the
execute phase failed, in which case `DurationWaitBegin` is absent). -/
def amendedEventOrder (evs : List Event) : Bool :=
  match evs with
  | [] => true
  | .started :: rest => rest.isEmpty || eventMidMatch rest
  | _ => false

/-! ## Helper lemmas -/

theorem dropWhile_append_all {α : Type} (p : α → Bool) (l r : List α)
    (h : ∀ x ∈ l, p x = true) :
    List.dropWhile p (l ++ r) = List.dropWhile p r := by
  induction l with
  | nil => rfl
  | cons a l ih =>
    have ha : p a = true := h a (by simp)
    simp only [List.cons_append, List.dropWhile_cons, ha, if_true]
    exact ih fun x hx => h x (by simp [hx])

/-- At most the last execution record can be a failure. -/
def recordsOkThenFail : List SkillExecutionRecord → Bool
  | [] => true
  | r :: rest => if r.success then recordsOkThenFail rest else rest.isEmpty

theorem recordsOkThenFail_append {l m : List SkillExecutionRecord}
    (hl : ∀ r ∈ l, r.success = true) (hm : recordsOkThenFail m = true) :
    recordsOkThenFail (l ++ m) = true := by
  induction l with
  | nil => simpa using hm
  | cons r l ih =>
    have hr : r.success = true := hl r (by simp)
    simp only [List.cons_append, recordsOkThenFail, hr, if_true]
    exact ih fun x hx => hl x (by simp [hx])

theorem runReps_records_shape (a : AgentBehavior) (s : String) :
    ∀ reps n, recordsOkThenFail (runReps a s reps n).records = true
      ∧ ((runReps a s reps n).result = none →
          ∀ r ∈ (runReps a s reps n).records, r.success = true) := by
  intro reps
  induction reps with
  | zero => intro n; simp [runReps, recordsOkThenFail]
  | succ reps ih =>
    intro n
    simp only [runReps]
    cases hc : a.execCall n with
    | ctxErr e => simp [recordsOkThenFail]
    | execOk h =>
      refine ⟨?_, ?_⟩
      · simpa [recordsOkThenFail] using (ih (n + 1)).1
      · intro hres r hr
        simp only [List.mem_cons] at hr
        rcases hr with rfl | hr
        · rfl
        · exact (ih (n + 1)).2 hres r hr
    | execErr e => simp [recordsOkThenFail]

theorem execSkills_records_shape (a : AgentBehavior) :
    ∀ invs n, recordsOkThenFail (execSkills a invs n).records = true
      ∧ ((execSkills a invs n).result = none →
          ∀ r ∈ (execSkills a invs n).records, r.success = true) := by
  intro invs
  induction invs with
  | nil => intro n; simp [execSkills, recordsOkThenFail]
  | cons inv rest ih =>
    intro n
    simp only [execSkills]
    by_cases hs : a.hasSkill inv.skillName
    · simp only [hs, if_true]
      cases hv : a.validateErr inv with
      | some e => simp [recordsOkThenFail]
      | none =>
        cases hr : (runReps a inv.skillName inv.count n).result with
        | some e =>
          refine ⟨(runReps_records_shape a inv.skillName inv.count n).1, ?_⟩
          intro h; simp at h
        | none =>
          have hall := (runReps_records_shape a inv.skillName inv.count n).2 hr
          refine ⟨recordsOkThenFail_append hall
            (ih (runReps a inv.skillName inv.count n).calls).1, ?_⟩
          intro hres r hmem
          rcases List.mem_append.mp hmem with hm | hm
          · exact hall r hm
          · exact (ih (runReps a inv.skillName inv.count n).calls).2 hres r hm
    · simp [hs, recordsOkThenFail]

theorem recordsOkThenFail_getLast {l : List SkillExecutionRecord}
    (hshape : recordsOkThenFail l = true) {r : SkillExecutionRecord}
    (hmem : r ∈ l) (hfail : r.success = false) : l.getLast? = some r := by
  induction l with
  | nil => cases hmem
  | cons x rest ih =>
    simp only [recordsOkThenFail] at hshape
    by_cases hx : x.success
    · simp only [hx, if_true] at hshape
      have hr : r ∈ rest := by
        rcases List.mem_cons.mp hmem with rfl | h
        · rw [hx] at hfail; cases hfail
        · exact h
      have hrest := ih hshape hr
      have hne : rest ≠ [] := by
        intro hnil; rw [hnil] at hr; cases hr
      rw [List.getLast?_cons, hrest]
      rfl
    · simp only [hx, if_false] at hshape
      have hnil : rest = [] := by
        cases rest with
        | nil => rfl
        | cons y ys => simp at hshape
      subst hnil
      rcases List.mem_cons.mp hmem with rfl | h
      · rfl
      · cases h

theorem recordsOkThenFail_dropLast {l : List SkillExecutionRecord}
    (hshape : recordsOkThenFail l = true) :
    ∀ r ∈ l.dropLast, r.success = true := by
  induction l with
  | nil => intro r hr; cases hr
  | cons x rest ih =>
    intro r hr
    simp only [recordsOkThenFail] at hshape
    cases rest with
    | nil => simp at hr
    | cons y ys =>
      rw [List.dropLast_cons₂, List.mem_cons] at hr
      by_cases hx : x.success
      · simp only [hx, if_true] at hshape
        rcases hr with rfl | hr
        · exact hx
        · exact ih hshape r hr
      · simp [hx] at hshape

theorem runReps_events_SE (a : AgentBehavior) (s : String) :
    ∀ reps n, ∀ e ∈ (runReps a s reps n).events, e.isSkillExecuted = true := by
  intro reps
  induction reps with
  | zero => intro n e he; simp [runReps] at he
  | succ reps ih =>
    intro n e he
    simp only [runReps] at he
    cases hc : a.execCall n with
    | ctxErr x => rw [hc] at he; simp at he
    | execOk h =>
      rw [hc] at he
      simp only [List.mem_cons] at he
      rcases he with rfl | he
      · rfl
      · exact ih (n + 1) e he
    | execErr x =>
      rw [hc] at he
      simp only [List.mem_cons, List.not_mem_nil, or_false] at he
      subst he; rfl

theorem execSkills_events_SE (a : AgentBehavior) :
    ∀ invs n, ∀ e ∈ (execSkills a invs n).events, e.isSkillExecuted = true := by
  intro invs
  induction invs with
  | nil => intro n e he; simp [execSkills] at he
  | cons inv rest ih =>
    intro n e he
    simp only [execSkills] at he
    by_cases hs : a.hasSkill inv.skillName
    · simp only [hs, if_true] at he
      cases hv : a.validateErr inv with
      | some x => rw [hv] at he; simp at he
      | none =>
        rw [hv] at he
        cases hr : (runReps a inv.skillName inv.count n).result with
        | some x =>
          rw [hr] at he
          exact runReps_events_SE a inv.skillName inv.count n e he
        | none =>
          rw [hr] at he
          simp only at he
          rcases List.mem_append.mp he with hm | hm
          · exact runReps_events_SE a inv.skillName inv.count n e hm
          · exact ih _ e hm
    · simp [hs] at he

theorem rollbackPhase_events_RSC (a : AgentBehavior) :
    ∀ hs n, ∀ e ∈ (rollbackPhase a hs n).events, e.isRollbackStep = true := by
  intro hs
  induction hs with
  | nil => intro n e he; simp [rollbackPhase] at he
  | cons h rest ih =>
    intro n e he
    simp only [rollbackPhase] at he
    by_cases hsk : a.hasSkill h.skillName
    · simp only [hsk, if_true] at he
      cases hc : a.rbCtxErr n with
      | some x => rw [hc] at he; exact ih (n + 1) e he
      | none =>
        rw [hc] at he
        simp only [List.mem_cons] at he
        rcases he with rfl | he
        · rfl
        · exact ih (n + 1) e he
    · simp only [hsk, if_false] at he
      exact ih (n + 1) e he

theorem rollbackPhase_records_names (a : AgentBehavior) :
    ∀ hs n, (rollbackPhase a hs n).records.map RollbackStepRecord.skillName
      = hs.map RollbackHandle.skillName := by
  intro hs
  induction hs with
  | nil => intro n; rfl
  | cons h rest ih =>
    intro n
    simp only [rollbackPhase]
    by_cases hsk : a.hasSkill h.skillName
    · simp only [hsk, if_true]
      cases hc : a.rbCtxErr n with
      | some x => simp [ih (n + 1)]
      | none => simp [ih (n + 1)]
    · simp [hsk, ih (n + 1)]

theorem rollbackPhase_invoked_all (a : AgentBehavior) :
    ∀ hs n, (∀ h ∈ hs, a.hasSkill h.skillName = true) →
      (∀ m, a.rbCtxErr m = none) →
      (rollbackPhase a hs n).invoked = hs := by
  intro hs
  induction hs with
  | nil => intro n _ _; rfl
  | cons h rest ih =>
    intro n hsk hctx
    have hh : a.hasSkill h.skillName = true := hsk h (by simp)
    simp only [rollbackPhase, hh, if_true, hctx n]
    simpa using ih (n + 1) (fun x hx => hsk x (by simp [hx])) hctx

theorem runReps_result_shape (a : AgentBehavior) (s : String) :
    ∀ reps n e, (runReps a s reps n).result = some e →
      (∃ m e', a.execCall m = .ctxErr e' ∧ e = e')
      ∨ (∃ src, e = .skillExecution s src) := by
  intro reps
  induction reps with
  | zero => intro n e he; simp [runReps] at he
  | succ reps ih =>
    intro n e he
    simp only [runReps] at he
    cases hc : a.execCall n with
    | ctxErr x =>
      rw [hc] at he
      simp only [Option.some.injEq] at he
      exact Or.inl ⟨n, x, hc, he.symm⟩
    | execOk h => rw [hc] at he; exact ih (n + 1) e he
    | execErr x =>
      rw [hc] at he
      simp only [Option.some.injEq] at he
      exact Or.inr ⟨x.display, he.symm⟩

theorem execSkills_result_shape (a : AgentBehavior) :
    ∀ invs n e, (execSkills a invs n).result = some e →
      (∃ name, e = .config ("Unknown skill: " ++ name))
      ∨ (∃ inv, a.validateErr inv = some e)
      ∨ (∃ m e', a.execCall m = .ctxErr e' ∧ e = e')
      ∨ (∃ name src, e = .skillExecution name src) := by
  intro invs
  induction invs with
  | nil => intro n e he; simp [execSkills] at he
  | cons inv rest ih =>
    intro n e he
    simp only [execSkills] at he
    by_cases hs : a.hasSkill inv.skillName
    · simp only [hs, if_true] at he
      cases hv : a.validateErr inv with
      | some x =>
        rw [hv] at he
        simp only [Option.some.injEq] at he
        exact Or.inr (Or.inl ⟨inv, by rw [hv, he]⟩)
      | none =>
        rw [hv] at he
        cases hr : (runReps a inv.skillName inv.count n).result with
        | some x =>
          rw [hr] at he
          simp only [Option.some.injEq] at he
          subst he
          rcases runReps_result_shape a inv.skillName inv.count n x hr with hcase | hcase
          · exact Or.inr (Or.inr (Or.inl hcase))
          · rcases hcase with ⟨src, rfl⟩
            exact Or.inr (Or.inr (Or.inr ⟨inv.skillName, src, rfl⟩))
        | none =>
          rw [hr] at he
          exact ih _ e he
    · simp only [if_neg hs, Option.some.injEq] at he
      exact Or.inl ⟨inv.skillName, he.symm⟩

theorem str_append_left_cancel {a b c : String} (h : a ++ b = a ++ c) : b = c := by
  have hd := congrArg String.data h
  rw [String.data_append, String.data_append] at hd
  exact String.ext (List.append_cancel_left hd)

theorem str_length_ne {s t : String} (h : s.length ≠ t.length) : s ≠ t := by
  intro he; exact h (by rw [he])

theorem find?_replace_self (m : List (TargetDomain × AgentBehavior))
    (k : TargetDomain) (v : AgentBehavior)
    (hany : m.any (fun q => decide (q.1 = k)) = true) :
    List.find? (fun p => decide (p.1 = k))
      (m.map fun p => if p.1 = k then (k, v) else p) = some (k, v) := by
  induction m with
  | nil => simp at hany
  | cons p m ih =>
    by_cases hp : p.1 = k
    · simp [List.find?_cons, hp]
    · have hm : m.any (fun q => decide (q.1 = k)) = true := by
        simpa [List.any_cons, hp] using hany
      simp only [List.map_cons, if_neg hp, List.find?_cons]
      have hpd : (decide (p.1 = k)) = false := by simp [hp]
      rw [hpd]
      exact ih hm

theorem hmGet_insert_self (m : List (TargetDomain × AgentBehavior))
    (k : TargetDomain) (v : AgentBehavior) :
    hmGet (hmInsert m k v) k = some v := by
  by_cases hany : m.any (fun q => decide (q.1 = k)) = true
  · simp only [hmGet, hmInsert, hany, if_true]
    rw [find?_replace_self m k v hany]
    rfl
  · simp only [hmGet, hmInsert, hany, Bool.false_eq_true, if_false]
    rw [List.find?_append]
    have hnone : List.find? (fun p => decide (p.1 = k)) m = none := by
      rw [List.find?_eq_none]
      intro x hx
      have hf : m.any (fun q => decide (q.1 = k)) = false := Bool.eq_false_iff.mpr hany
      have := List.any_eq_false.mp hf x hx
      simpa using this
    rw [hnone]
    simp [List.find?]

theorem hmInsert_keys_nodup (m : List (TargetDomain × AgentBehavior))
    (k : TargetDomain) (v : AgentBehavior)
    (h : (m.map Prod.fst).Nodup) :
    ((hmInsert m k v).map Prod.fst).Nodup := by
  by_cases hany : m.any (fun q => decide (q.1 = k)) = true
  · simp only [hmInsert, hany, if_true]
    have hkeys : (m.map fun p => if p.1 = k then (k, v) else p).map Prod.fst
        = m.map Prod.fst := by
      rw [List.map_map]
      apply List.map_congr_left
      intro p _
      by_cases hp : p.1 = k
      · simp [hp]
      · simp [hp]
    rw [hkeys]
    exact h
  · simp only [hmInsert, hany, Bool.false_eq_true, if_false, List.map_append]
    rw [List.nodup_append]
    refine ⟨h, by simp, ?_⟩
    intro x hx hk
    simp only [List.map_cons, List.map_nil, List.mem_singleton] at hk
    subst hk
    rcases List.mem_map.mp hx with ⟨p, hp, hpk⟩
    have hf : m.any (fun q => decide (q.1 = x)) = false := Bool.eq_false_iff.mpr hany
    have hpf := List.any_eq_false.mp hf p hp
    simp only [decide_eq_true_eq] at hpf
    exact hpf hpk

theorem keys_nodup_filter_le_one (m : List (TargetDomain × AgentBehavior))
    (h : (m.map Prod.fst).Nodup) (d : TargetDomain) :
    (m.filter fun p => decide (p.1 = d)).length ≤ 1 := by
  induction m with
  | nil => simp
  | cons p m ih =>
    simp only [List.map_cons, List.nodup_cons] at h
    rw [List.filter_cons]
    by_cases hp : p.1 = d
    · rw [if_pos (by simp [hp])]
      have hnil : m.filter (fun q => decide (q.1 = d)) = [] := by
        rw [List.filter_eq_nil_iff]
        intro q hq hqd
        exact h.1 (by
          rw [List.mem_map]
          exact ⟨q, hq, by rw [of_decide_eq_true hqd, hp]⟩)
      simp [hnil]
    · rw [if_neg (by simp [hp])]
      exact ih h.2

/-- All agents ever registered, oldest first. -/
def registerAll (regs : List AgentBehavior) : Orchestrator :=
  regs.foldl registerAgent Orchestrator.new

theorem registerAll_keys_nodup (regs : List AgentBehavior) :
    ((registerAll regs).agents.map Prod.fst).Nodup := by
  suffices hgen : ∀ (o : Orchestrator), (o.agents.map Prod.fst).Nodup →
      (((regs.foldl registerAgent o).agents.map Prod.fst)).Nodup by
    exact hgen Orchestrator.new (by simp [Orchestrator.new])
  induction regs with
  | nil => intro o ho; simpa using ho
  | cons a regs ih =>
    intro o ho
    exact ih (registerAgent o a) (hmInsert_keys_nodup o.agents a.domain a ho)

theorem runReps_all_ok (a : AgentBehavior) (s : String) :
    ∀ N n, (∀ i, i < N → (a.execCall (n + i)).isOk = true) →
      (runReps a s N n).log.length = N ∧ (runReps a s N n).result = none := by
  intro N
  induction N with
  | zero => intro n _; simp [runReps]
  | succ N ih =>
    intro n hok
    have h0 : (a.execCall n).isOk = true := by
      have := hok 0 (Nat.succ_pos N)
      simpa using this
    cases hc : a.execCall n with
    | ctxErr e => rw [hc] at h0; simp [ExecCallResult.isOk] at h0
    | execErr e => rw [hc] at h0; simp [ExecCallResult.isOk] at h0
    | execOk h =>
      have hrest := ih (n + 1) (fun i hi => by
        have := hok (i + 1) (Nat.succ_lt_succ hi)
        simpa [Nat.add_assoc, Nat.add_comm 1 i] using this)
      simp only [runReps, hc]
      exact ⟨by simp [hrest.1], hrest.2⟩

theorem runReps_fail_at (a : AgentBehavior) (s : String) :
    ∀ k N n, k < N → (∀ i, i < k → (a.execCall (n + i)).isOk = true) →
      (a.execCall (n + k)).isExecFailure = true →
      (runReps a s N n).log.length = k
      ∧ (runReps a s N n).result.isSome = true := by
  intro k
  induction k with
  | zero =>
    intro N n hkN _ hfail
    cases N with
    | zero => cases hkN
    | succ N =>
      simp only [Nat.add_zero] at hfail
      cases hc : a.execCall n with
      | ctxErr e => rw [hc] at hfail; simp [ExecCallResult.isExecFailure] at hfail
      | execOk h => rw [hc] at hfail; simp [ExecCallResult.isExecFailure] at hfail
      | execErr e => simp [runReps, hc]
  | succ k ih =>
    intro N n hkN hok hfail
    cases N with
    | zero => cases hkN
    | succ N =>
      have h0 : (a.execCall n).isOk = true := by
        have := hok 0 (Nat.succ_pos k)
        simpa using this
      cases hc : a.execCall n with
      | ctxErr e => rw [hc] at h0; simp [ExecCallResult.isOk] at h0
      | execErr e => rw [hc] at h0; simp [ExecCallResult.isOk] at h0
      | execOk h =>
        have hrest := ih N (n + 1) (Nat.lt_of_succ_lt_succ hkN)
          (fun i hi => by
            have := hok (i + 1) (Nat.succ_lt_succ hi)
            simpa [Nat.add_assoc, Nat.add_comm 1 i] using this)
          (by
            have : n + 1 + k = n + (k + 1) := by omega
            rw [this]
            exact hfail)
        simp only [runReps, hc]
        exact ⟨by simp [hrest.1], hrest.2⟩

theorem Char.toUpper_of_digit (c : Char) (h : c.isDigit = true) : c.toUpper = c := by
  simp only [Char.isDigit, Bool.and_eq_true, decide_eq_true_eq] at h
  unfold Char.toUpper
  rw [if_neg]
  rintro ⟨h1, h2⟩
  have hle : c.toNat ≤ 57 := by
    have hv := h.2
    simp only [Char.toNat]
    exact hv
  omega

theorem asciiUpper_data (s : String) : (asciiUpper s).data = s.data.map Char.toUpper := rfl

theorem asciiUpper_append (s t : String) :
    asciiUpper (s ++ t) = asciiUpper s ++ asciiUpper t := by
  apply String.ext
  rw [String.data_append, asciiUpper_data, String.data_append,
    asciiUpper_data, asciiUpper_data, List.map_append]

theorem asciiUpper_of_fixed (s : String) (h : ∀ c ∈ s.data, c.toUpper = c) :
    asciiUpper s = s := by
  apply String.ext
  rw [asciiUpper_data]
  exact List.map_congr_left h |>.trans (List.map_id s.data)

theorem asciiUpper_of_digits (s : String) (h : ∀ c ∈ s.data, c.isDigit = true) :
    asciiUpper s = s :=
  asciiUpper_of_fixed s fun c hc => Char.toUpper_of_digit c (h c hc)

theorem strEndsWith_append_self (s t : String) : strEndsWith (s ++ t) t = true := by
  simp only [strEndsWith, String.data_append, List.reverse_append]
  exact List.isPrefixOf_iff_prefix.mpr (List.prefix_append _ _)

theorem strDropRight_append (s t : String) :
    strDropRight (s ++ t) t.data.length = s := by
  apply String.ext
  simp only [strDropRight, String.data_append, List.length_append,
    Nat.add_sub_cancel]
  exact List.take_left s.data t.data

theorem parseU64_digits (s : String) (h1 : s.data ≠ [])
    (h2 : ∀ c ∈ s.data, c.isDigit = true) :
    digitsVal s.data < 2 ^ 64 → parseU64 s = some (digitsVal s.data) := by
  intro h3
  have hplus : ¬s.data.head? = some '+' := by
    cases hd : s.data with
    | nil => exact absurd hd h1
    | cons c rest =>
      simp only [List.head?_cons, Option.some.injEq]
      intro hc
      have := h2 c (by rw [hd]; simp)
      rw [hc] at this
      simp at this
  simp only [parseU64, if_neg hplus]
  rw [if_neg (by simp [List.isEmpty_eq_false.mpr h1, h1]),
    if_pos (by simp only [List.all_eq_true.mpr h2, Bool.true_and,
      decide_eq_true_eq]; simpa using h3)]

theorem isPrefixOf_cons_same (c : Char) (l r : List Char) :
    (c :: l).isPrefixOf (c :: r) = l.isPrefixOf r := by
  rw [List.isPrefixOf_cons₂, BEq.refl, Bool.true_and]

theorem isPrefixOf_cons_ne {c d : Char} (l r : List Char) (h : (c == d) = false) :
    (c :: l).isPrefixOf (d :: r) = false := by
  rw [List.isPrefixOf_cons₂, h, Bool.false_and]

theorem endsWith_MB_GB (s : String) : strEndsWith (s ++ "MB") "GB" = false := by
  simp only [strEndsWith, String.data_append, List.reverse_append]
  show (['B', 'G'] : List Char).isPrefixOf ('B' :: 'M' :: s.data.reverse) = false
  rw [isPrefixOf_cons_same, isPrefixOf_cons_ne _ _ (by decide)]

theorem endsWith_G_GB (s : String) : strEndsWith (s ++ "G") "GB" = false := by
  simp only [strEndsWith, String.data_append, List.reverse_append]
  show (['B', 'G'] : List Char).isPrefixOf ('G' :: s.data.reverse) = false
  rw [isPrefixOf_cons_ne _ _ (by decide)]

theorem endsWith_G_MB (s : String) : strEndsWith (s ++ "G") "MB" = false := by
  simp only [strEndsWith, String.data_append, List.reverse_append]
  show (['B', 'M'] : List Char).isPrefixOf ('G' :: s.data.reverse) = false
  rw [isPrefixOf_cons_ne _ _ (by decide)]

theorem endsWith_M_GB (s : String) : strEndsWith (s ++ "M") "GB" = false := by
  simp only [strEndsWith, String.data_append, List.reverse_append]
  show (['B', 'G'] : List Char).isPrefixOf ('M' :: s.data.reverse) = false
  rw [isPrefixOf_cons_ne _ _ (by decide)]

theorem endsWith_M_MB (s : String) : strEndsWith (s ++ "M") "MB" = false := by
  simp only [strEndsWith, String.data_append, List.reverse_append]
  show (['B', 'M'] : List Char).isPrefixOf ('M' :: s.data.reverse) = false
  rw [isPrefixOf_cons_ne _ _ (by decide)]

theorem endsWith_M_G (s : String) : strEndsWith (s ++ "M") "G" = false := by
  simp only [strEndsWith, String.data_append, List.reverse_append]
  show (['G'] : List Char).isPrefixOf ('M' :: s.data.reverse) = false
  rw [isPrefixOf_cons_ne _ _ (by decide)]

theorem valid_modes_upper_fixed :
    ∀ v ∈ VALID_TABLE_LOCK_MODES, asciiUpper v = v := by decide

theorem contains_iff_mem_str (l : List String) (a : String) :
    l.contains a = true ↔ a ∈ l := by
  simp [List.contains, List.elem_iff]

theorem runExperiment_eq_none (o : Orchestrator) (config : ExperimentConfig)
    (hg : hmGet o.agents config.target = none) :
    runExperiment o config =
      ⟨.error (.config ("No agent registered for target: " ++ config.target.display)),
        [], false, [], [], [], []⟩ := by
  unfold runExperiment; rw [hg]

theorem runExperiment_eq_some (o : Orchestrator) (config : ExperimentConfig)
    (a : AgentBehavior) (hg : hmGet o.agents config.target = some a) :
    runExperiment o config = runWithAgent a config := by
  unfold runExperiment; rw [hg]

theorem runWithAgent_eq_init_err (a : AgentBehavior) (config : ExperimentConfig)
    (e : ChaosErr) (hinit : a.initErr = some e) :
    runWithAgent a config = ⟨.error e, [.started], false, [], [], [], []⟩ := by
  unfold runWithAgent; rw [hinit]

theorem runWithAgent_eq_disc_err (a : AgentBehavior) (config : ExperimentConfig)
    (e : ChaosErr) (hinit : a.initErr = none) (hdisc : a.discoverRes = .error e) :
    runWithAgent a config = ⟨.error e, [.started], false, [], [], [], []⟩ := by
  unfold runWithAgent; rw [hinit, hdisc]

theorem runWithAgent_eq_ok (a : AgentBehavior) (config : ExperimentConfig)
    (disc : List (String × String)) (hinit : a.initErr = none)
    (hdisc : a.discoverRes = .ok disc) :
    runWithAgent a config = ⟨
      .ok ⟨config.name, config.target,
        (match (execSkills a config.skills 0).result with
          | some e => "failed: " ++ e.display
          | none => "completed"),
        disc, (execSkills a config.skills 0).records,
        (rollbackPhase a (execSkills a config.skills 0).log.reverse 0).records⟩,
      [.started] ++ (execSkills a config.skills 0).events ++
        (match (execSkills a config.skills 0).result with
          | some e => [.failed e.display]
          | none => [.durationWaitBegin]) ++
        [.rollbackStarted] ++
        (rollbackPhase a (execSkills a config.skills 0).log.reverse 0).events ++
        [.completed],
      (execSkills a config.skills 0).result.isNone,
      (execSkills a config.skills 0).log,
      (rollbackPhase a (execSkills a config.skills 0).log.reverse 0).invoked,
      (execSkills a config.skills 0).records,
      (rollbackPhase a (execSkills a config.skills 0).log.reverse 0).records⟩ := by
  unfold runWithAgent; rw [hinit, hdisc]

/-- C6: running an experiment whose target domain has no registered agent
returns a `Configuration` error naming the target, and no lifecycle event
is emitted to any sink (the lookup error propagates before the `Started`
emit at `orchestrator.rs` 62). -/
theorem C6_no_agent_config_error (o : Orchestrator) (config : ExperimentConfig)
    (h : hmGet o.agents config.target = none) :
    (runExperiment o config).result
      = .error (.config ("No agent registered for target: " ++ config.target.display))
    ∧ (runExperiment o config).events = [] := by
  rw [runExperiment_eq_none o config h]
  exact ⟨rfl, rfl⟩

def wConfigDb : ExperimentConfig := ⟨"w6", .database, "", [], 0, false, []⟩

theorem C6_witness :
    (runExperiment Orchestrator.new wConfigDb).result
      = .error (.config ("No agent registered for target: "
          ++ wConfigDb.target.display))
    ∧ (runExperiment Orchestrator.new wConfigDb).events = [] :=
  C6_no_agent_config_error Orchestrator.new wConfigDb rfl

/-- C8: `table_lock` parameter validation succeeds exactly when the
`lock_mode` parameter equals one of the eight Postgres table lock modes up
to (ASCII) case. -/
theorem C8_table_lock_validation (p : TableLockParams) :
    tableLockValidateParams p = .ok ()
      ↔ ∃ v ∈ VALID_TABLE_LOCK_MODES, eqCaseInsensitive p.lockMode v := by
  unfold tableLockValidateParams validate_lock_mode
  constructor
  · intro h
    by_cases hc : VALID_TABLE_LOCK_MODES.contains (asciiUpper p.lockMode) = true
    · have hmem := (contains_iff_mem_str _ _).mp hc
      refine ⟨asciiUpper p.lockMode, hmem, ?_⟩
      unfold eqCaseInsensitive
      rw [valid_modes_upper_fixed _ hmem]
    · rw [if_neg hc] at h
      cases h
  · rintro ⟨v, hv, heq⟩
    have hup : asciiUpper p.lockMode = v := by
      unfold eqCaseInsensitive at heq
      rw [heq, valid_modes_upper_fixed v hv]
    rw [if_pos ((contains_iff_mem_str _ _).mpr (by rw [hup]; exact hv))]

/-- Convenience equation for `parse_size_mb` used below. -/
theorem parse_size_mb_eq (size : String) :
    parse_size_mb size =
      (if strEndsWith (asciiUpper size) "GB" then
        (parseU64 (strDropRight (asciiUpper size) 2)).getD 1 * 1024
      else if strEndsWith (asciiUpper size) "MB" then
        (parseU64 (strDropRight (asciiUpper size) 2)).getD 100
      else if strEndsWith (asciiUpper size) "G" then
        (parseU64 (strDropRight (asciiUpper size) 1)).getD 1 * 1024
      else if strEndsWith (asciiUpper size) "M" then
        (parseU64 (strDropRight (asciiUpper size) 1)).getD 100
      else 100) := rfl

/-- C9: the `disk_fill` size parser maps `NGB`/`NG` to `N * 1024` MB and
`NMB`/`NM` to `N` MB for a decimal numeral `N`, and yields the 100 MB
default when no recognized suffix is present. -/
theorem C9_disk_fill_size_parsing :
    (∀ s : String, s.data ≠ [] → (∀ c ∈ s.data, c.isDigit = true) →
      digitsVal s.data < 2 ^ 64 →
      parse_size_mb (s ++ "GB") = digitsVal s.data * 1024
      ∧ parse_size_mb (s ++ "G") = digitsVal s.data * 1024
      ∧ parse_size_mb (s ++ "MB") = digitsVal s.data
      ∧ parse_size_mb (s ++ "M") = digitsVal s.data)
    ∧ (∀ s : String,
      strEndsWith (asciiUpper s) "GB" = false →
      strEndsWith (asciiUpper s) "MB" = false →
      strEndsWith (asciiUpper s) "G" = false →
      strEndsWith (asciiUpper s) "M" = false →
      parse_size_mb s = 100) := by
  constructor
  · intro s hne hdig hbound
    have hfix := asciiUpper_of_digits s hdig
    have hn := parseU64_digits s hne hdig hbound
    refine ⟨?_, ?_, ?_, ?_⟩
    · have hup : asciiUpper (s ++ "GB") = s ++ "GB" := by
        rw [asciiUpper_append, hfix, show asciiUpper "GB" = "GB" from by decide]
      rw [parse_size_mb_eq, hup, if_pos (strEndsWith_append_self s "GB")]
      have hdr : strDropRight (s ++ "GB") 2 = s := strDropRight_append s "GB"
      rw [hdr, hn]
      rfl
    · have hup : asciiUpper (s ++ "G") = s ++ "G" := by
        rw [asciiUpper_append, hfix, show asciiUpper "G" = "G" from by decide]
      rw [parse_size_mb_eq, hup, if_neg (by simp [endsWith_G_GB s]),
        if_neg (by simp [endsWith_G_MB s]), if_pos (strEndsWith_append_self s "G")]
      have hdr : strDropRight (s ++ "G") 1 = s := strDropRight_append s "G"
      rw [hdr, hn]
      rfl
    · have hup : asciiUpper (s ++ "MB") = s ++ "MB" := by
        rw [asciiUpper_append, hfix, show asciiUpper "MB" = "MB" from by decide]
      rw [parse_size_mb_eq, hup, if_neg (by simp [endsWith_MB_GB s]),
        if_pos (strEndsWith_append_self s "MB")]
      have hdr : strDropRight (s ++ "MB") 2 = s := strDropRight_append s "MB"
      rw [hdr, hn]
      rfl
    · have hup : asciiUpper (s ++ "M") = s ++ "M" := by
        rw [asciiUpper_append, hfix, show asciiUpper "M" = "M" from by decide]
      rw [parse_size_mb_eq, hup, if_neg (by simp [endsWith_M_GB s]),
        if_neg (by simp [endsWith_M_MB s]), if_neg (by simp [endsWith_M_G s]),
        if_pos (strEndsWith_append_self s "M")]
      have hdr : strDropRight (s ++ "M") 1 = s := strDropRight_append s "M"
      rw [hdr, hn]
      rfl
  · intro s h1 h2 h3 h4
    rw [parse_size_mb_eq, if_neg (by simp [h1]), if_neg (by simp [h2]),
      if_neg (by simp [h3]), if_neg (by simp [h4])]

theorem C9_witness :
    (parse_size_mb ("2" ++ "GB") = digitsVal "2".data * 1024
      ∧ parse_size_mb ("2" ++ "G") = digitsVal "2".data * 1024
      ∧ parse_size_mb ("2" ++ "MB") = digitsVal "2".data
      ∧ parse_size_mb ("2" ++ "M") = digitsVal "2".data)
    ∧ parse_size_mb "100kb" = 100 :=
  ⟨C9_disk_fill_size_parsing.1 "2" (by decide) (by decide) (by decide),
    C9_disk_fill_size_parsing.2 "100kb" (by decide) (by decide) (by decide)
      (by decide)⟩

/-- C10: registering an agent for an already-registered domain replaces
the earlier agent: lookup returns the most recent registration, any
subsequent run for that domain dispatches to it, and the agent map holds
at most one entry per domain. -/
theorem C10_register_agent_replaces (regs : List AgentBehavior)
    (a1 a2 : AgentBehavior) (config : ExperimentConfig)
    (_hdom : a1.domain = a2.domain) (htgt : config.target = a2.domain) :
    hmGet (registerAgent (registerAgent (registerAll regs) a1) a2).agents
        a2.domain = some a2
    ∧ runExperiment (registerAgent (registerAgent (registerAll regs) a1) a2)
        config = runWithAgent a2 config
    ∧ ∀ d, ((registerAgent (registerAgent (registerAll regs) a1) a2).agents.filter
        fun p => decide (p.1 = d)).length ≤ 1 := by
  have hget : hmGet (registerAgent (registerAgent (registerAll regs) a1) a2).agents
      a2.domain = some a2 := hmGet_insert_self _ _ _
  refine ⟨hget, ?_, ?_⟩
  · apply runExperiment_eq_some
    rw [htgt]
    exact hget
  · intro d
    apply keys_nodup_filter_le_one
    apply hmInsert_keys_nodup
    apply hmInsert_keys_nodup
    exact registerAll_keys_nodup regs

def wAgentOld : AgentBehavior :=
  ⟨.database, none, .ok [], fun _ => false, fun _ => none,
    fun _ => .execErr (.other "old agent"), fun _ => none, fun _ _ => none⟩

def wAgentNew : AgentBehavior :=
  ⟨.database, none, .ok [], fun _ => true, fun _ => none,
    fun _ => .execOk ⟨1, "s", "u"⟩, fun _ => none, fun _ _ => none⟩

theorem C10_witness :
    hmGet (registerAgent (registerAgent (registerAll []) wAgentOld)
      wAgentNew).agents wAgentNew.domain = some wAgentNew
    ∧ runExperiment (registerAgent (registerAgent (registerAll []) wAgentOld)
        wAgentNew) wConfigDb = runWithAgent wAgentNew wConfigDb :=
  ⟨(C10_register_agent_replaces [] wAgentOld wAgentNew wConfigDb rfl rfl).1,
    (C10_register_agent_replaces [] wAgentOld wAgentNew wConfigDb rfl rfl).2.1⟩

/-- C1 (amended): in every run, the rollback phase walks the rollback log
in reverse insertion order and invokes `rollback` exactly once for each
handle whose skill lookup and context build succeed — regardless of
whether a later `execute` call failed.  (A handle whose rollback-phase
skill lookup or context build fails is recorded as a failed step without
`rollback` being invoked; see the counterexample.) -/
theorem C1_rollback_reverse_order (o : Orchestrator) (config : ExperimentConfig)
    (a : AgentBehavior) (hg : hmGet o.agents config.target = some a)
    (_hlog : (runExperiment o config).log ≠ [])
    (hsk : ∀ h ∈ (runExperiment o config).log, a.hasSkill h.skillName = true)
    (hctx : ∀ m, a.rbCtxErr m = none) :
    (runExperiment o config).invoked = (runExperiment o config).log.reverse := by
  rw [runExperiment_eq_some o config a hg] at hsk ⊢
  cases hi : a.initErr with
  | some e =>
    rw [runWithAgent_eq_init_err a config e hi]
    rfl
  | none =>
    cases hd : a.discoverRes with
    | error e =>
      rw [runWithAgent_eq_disc_err a config e hi hd]
      rfl
    | ok disc =>
      rw [runWithAgent_eq_ok a config disc hi hd] at hsk ⊢
      apply rollbackPhase_invoked_all
      · intro h hh
        exact hsk h (by rwa [List.mem_reverse] at hh)
      · exact hctx

def cexHandle : RollbackHandle := ⟨0, "s1", "undo"⟩

/-- Agent whose execute succeeds but whose rollback-phase `build_context`
fails (e.g. the remote-host agent's SSH reconnect,
`chaos-server/src/agent.rs` 150-157). -/
def cexCtxFailAgent : AgentBehavior :=
  ⟨.server, none, .ok [], fun _ => true, fun _ => none,
    fun _ => .execOk cexHandle,
    fun _ => some (.connection "SSH reconnect to host failed"),
    fun _ _ => none⟩

def cexCtxFailOrch : Orchestrator := ⟨[(.server, cexCtxFailAgent)]⟩

def cexOneSkillConfig : ExperimentConfig :=
  ⟨"cex", .server, "", [⟨"s1", "", 1⟩], 1000, false, []⟩

/-- C1 counterexample: a run whose execute phase returned one handle but
whose rollback-phase context build fails invokes `rollback` zero times,
not once per handle. -/
theorem C1_counterexample :
    (runExperiment cexCtxFailOrch cexOneSkillConfig).log ≠ []
    ∧ (runExperiment cexCtxFailOrch cexOneSkillConfig).invoked
      ≠ (runExperiment cexCtxFailOrch cexOneSkillConfig).log.reverse := by
  decide

/-- C2: whenever the execute phase records a skill failure, the soak
branch (WaitingDuration status, `DurationWaitBegin` event, sleep) is
skipped, no further skill repetition is recorded after the failure (the
failed record is last), and the rollback phase still processes every
handle accumulated before the failure, in reverse order. -/
theorem C2_failure_skips_soak_not_rollback (o : Orchestrator)
    (config : ExperimentConfig)
    (hfail : ∃ r ∈ (runExperiment o config).execRecords, r.success = false) :
    (runExperiment o config).soak = false
    ∧ Event.durationWaitBegin ∉ (runExperiment o config).events
    ∧ (∀ r ∈ (runExperiment o config).execRecords.dropLast, r.success = true)
    ∧ (∃ r, (runExperiment o config).execRecords.getLast? = some r
        ∧ r.success = false)
    ∧ (runExperiment o config).rollbackRecords.map RollbackStepRecord.skillName
      = (runExperiment o config).log.reverse.map RollbackHandle.skillName
    ∧ Event.rollbackStarted ∈ (runExperiment o config).events := by
  cases hg : hmGet o.agents config.target with
  | none =>
    rw [runExperiment_eq_none o config hg] at hfail
    rcases hfail with ⟨r, hr, _⟩
    cases hr
  | some a =>
    rw [runExperiment_eq_some o config a hg] at hfail ⊢
    cases hi : a.initErr with
    | some e =>
      rw [runWithAgent_eq_init_err a config e hi] at hfail
      rcases hfail with ⟨r, hr, _⟩
      cases hr
    | none =>
      cases hd : a.discoverRes with
      | error e =>
        rw [runWithAgent_eq_disc_err a config e hi hd] at hfail
        rcases hfail with ⟨r, hr, _⟩
        cases hr
      | ok disc =>
        rw [runWithAgent_eq_ok a config disc hi hd] at hfail ⊢
        have hshape := execSkills_records_shape a config.skills 0
        rcases hfail with ⟨r, hr, hrf⟩
        have hres : ∃ e, (execSkills a config.skills 0).result = some e := by
          cases hres0 : (execSkills a config.skills 0).result with
          | none => exact absurd (hshape.2 hres0 r hr) (by simp [hrf])
          | some e => exact ⟨e, rfl⟩
        obtain ⟨e, he⟩ := hres
        refine ⟨?_, ?_, ?_, ?_, ?_, ?_⟩
        · show (execSkills a config.skills 0).result.isNone = false
          rw [he]
          rfl
        · show Event.durationWaitBegin ∉ _
          rw [he]
          intro hmem
          simp only [List.mem_append, List.mem_cons, List.not_mem_nil,
            or_false, List.mem_singleton] at hmem
          rcases hmem with ((((hm | hm) | hm) | hm) | hm) | hm
          · cases hm
          · have := execSkills_events_SE a config.skills 0 _ hm
            simp [Event.isSkillExecuted] at this
          · cases hm
          · cases hm
          · have := rollbackPhase_events_RSC a _ 0 _ hm
            simp [Event.isRollbackStep] at this
          · cases hm
        · exact recordsOkThenFail_dropLast hshape.1
        · exact ⟨r, recordsOkThenFail_getLast hshape.1 hr hrf, hrf⟩
        · exact rollbackPhase_records_names a _ 0
        · rw [he]
          simp

/-- Agent whose second execute call fails: one handle is pushed, then the
run fails. -/
def wFailAgent : AgentBehavior :=
  ⟨.database, none, .ok [], fun _ => true, fun _ => none,
    fun n => if n = 0 then .execOk ⟨0, "s1", "u0"⟩ else .execErr (.other "boom"),
    fun _ => none, fun _ _ => none⟩

def wFailOrch : Orchestrator := ⟨[(.database, wFailAgent)]⟩

def wFailConfig : ExperimentConfig :=
  ⟨"w2", .database, "", [⟨"s1", "", 2⟩], 1000, false, []⟩

theorem C2_witness :
    (runExperiment wFailOrch wFailConfig).soak = false
    ∧ Event.durationWaitBegin ∉ (runExperiment wFailOrch wFailConfig).events
    ∧ (runExperiment wFailOrch wFailConfig).rollbackRecords.map
        RollbackStepRecord.skillName
      = (runExperiment wFailOrch wFailConfig).log.reverse.map
        RollbackHandle.skillName :=
  have h := C2_failure_skips_soak_not_rollback wFailOrch wFailConfig (by decide)
  ⟨h.1, h.2.1, h.2.2.2.2.1⟩

/-- C4: the repetition loop of a `SkillInvocation{count = N}` pushes
exactly `N` handles when all repetitions succeed, exactly `k` handles when
the `(k+1)`-th repetition fails, and (when the rollback-phase lookups and
context builds succeed) every pushed handle is rolled back. -/
theorem C4_count_semantics :
    (∀ (a : AgentBehavior) (name : String) (N n : Nat),
      (∀ i, i < N → (a.execCall (n + i)).isOk = true) →
      (runReps a name N n).log.length = N
      ∧ (runReps a name N n).result = none)
    ∧ (∀ (a : AgentBehavior) (name : String) (N k n : Nat),
      k < N → (∀ i, i < k → (a.execCall (n + i)).isOk = true) →
      (a.execCall (n + k)).isExecFailure = true →
      (runReps a name N n).log.length = k
      ∧ (runReps a name N n).result.isSome = true)
    ∧ (∀ (o : Orchestrator) (config : ExperimentConfig) (a : AgentBehavior),
      hmGet o.agents config.target = some a →
      (∀ h ∈ (runExperiment o config).log, a.hasSkill h.skillName = true) →
      (∀ m, a.rbCtxErr m = none) →
      ∀ h ∈ (runExperiment o config).log,
        h ∈ (runExperiment o config).invoked) := by
  refine ⟨runReps_all_ok, fun a name N k n => runReps_fail_at a name k N n, ?_⟩
  intro o config a hg hsk hctx h hh
  rw [runExperiment_eq_some o config a hg] at hsk hh ⊢
  cases hi : a.initErr with
  | some e =>
    rw [runWithAgent_eq_init_err a config e hi] at hh
    cases hh
  | none =>
    cases hd : a.discoverRes with
    | error e =>
      rw [runWithAgent_eq_disc_err a config e hi hd] at hh
      cases hh
    | ok disc =>
      rw [runWithAgent_eq_ok a config disc hi hd] at hsk hh ⊢
      rw [rollbackPhase_invoked_all a _ 0
        (fun x hx => hsk x (by rwa [List.mem_reverse] at hx)) hctx]
      rwa [List.mem_reverse]

/-- Agent whose first two execute calls succeed and whose third fails. -/
def wCountAgent : AgentBehavior :=
  ⟨.database, none, .ok [], fun _ => true, fun _ => none,
    fun n => if n < 2 then .execOk ⟨n, "s1", "u"⟩ else .execErr (.other "boom"),
    fun _ => none, fun _ _ => none⟩

theorem C4_witness :
    ((runReps wCountAgent "s1" 2 0).log.length = 2
      ∧ (runReps wCountAgent "s1" 2 0).result = none)
    ∧ ((runReps wCountAgent "s1" 3 0).log.length = 2
      ∧ (runReps wCountAgent "s1" 3 0).result.isSome = true)
    ∧ (⟨0, "s1", "u0"⟩ : RollbackHandle) ∈
        (runExperiment wFailOrch wFailConfig).invoked :=
  ⟨C4_count_semantics.1 wCountAgent "s1" 2 0 (by decide),
    C4_count_semantics.2.1 wCountAgent "s1" 3 2 0 (by decide) (by decide)
      (by decide),
    C4_count_semantics.2.2 wFailOrch wFailConfig wFailAgent rfl (by decide)
      (fun _ => rfl) ⟨0, "s1", "u0"⟩ (by decide)⟩

theorem amendedEventOrder_cons (rest : List Event) :
    amendedEventOrder (Event.started :: rest)
      = (rest.isEmpty || eventMidMatch rest) := rfl

theorem eventTailMatch_shape (rbe : List Event)
    (hrbe : ∀ e ∈ rbe, e.isRollbackStep = true) :
    eventTailMatch (Event.rollbackStarted :: (rbe ++ [Event.completed]))
      = true := by
  show (match List.dropWhile Event.isRollbackStep (rbe ++ [Event.completed]) with
    | [Event.completed] => true
    | _ => false) = true
  rw [dropWhile_append_all _ rbe _ hrbe]
  rfl

theorem eventMidMatch_shape (pe rbe : List Event) (x : Event)
    (hpe : ∀ e ∈ pe, e.isSkillExecuted = true)
    (hrbe : ∀ e ∈ rbe, e.isRollbackStep = true)
    (hx : x = Event.durationWaitBegin ∨ ∃ d, x = Event.failed d) :
    eventMidMatch
      (pe ++ (x :: (Event.rollbackStarted :: (rbe ++ [Event.completed]))))
      = true := by
  have htail := eventTailMatch_shape rbe hrbe
  unfold eventMidMatch
  rw [dropWhile_append_all _ pe _ hpe]
  rcases hx with rfl | ⟨d, rfl⟩
  · rw [List.dropWhile_cons]
    simpa using htail
  · rw [List.dropWhile_cons]
    simpa using htail

/-- C5 (amended): per experiment the delivered events are: none when the
agent lookup fails; `Started` alone when `initialize` or `discover`
fails; otherwise `Started, (SkillExecuted)*, (Failed|DurationWaitBegin),
RollbackStarted, (RollbackStepCompleted)*, Completed` — `Failed` takes
`DurationWaitBegin`'s place exactly when the execute phase failed, and
`Completed` is the last event whenever it appears. -/
theorem C5_event_order (o : Orchestrator) (config : ExperimentConfig) :
    amendedEventOrder (runExperiment o config).events = true := by
  cases hg : hmGet o.agents config.target with
  | none => rw [runExperiment_eq_none o config hg]; rfl
  | some a =>
    rw [runExperiment_eq_some o config a hg]
    cases hi : a.initErr with
    | some e => rw [runWithAgent_eq_init_err a config e hi]; rfl
    | none =>
      cases hd : a.discoverRes with
      | error e => rw [runWithAgent_eq_disc_err a config e hi hd]; rfl
      | ok disc =>
        rw [runWithAgent_eq_ok a config disc hi hd]
        have hpe := execSkills_events_SE a config.skills 0
        have hrbe := rollbackPhase_events_RSC a
          (execSkills a config.skills 0).log.reverse 0
        cases hres : (execSkills a config.skills 0).result with
        | some e =>
          simp only [List.append_assoc, List.cons_append, List.nil_append,
            List.singleton_append]
          rw [amendedEventOrder_cons,
            eventMidMatch_shape _ _ _ hpe hrbe (Or.inr ⟨e.display, rfl⟩)]
          simp
        | none =>
          simp only [List.append_assoc, List.cons_append, List.nil_append,
            List.singleton_append]
          rw [amendedEventOrder_cons,
            eventMidMatch_shape _ _ _ hpe hrbe (Or.inl rfl)]
          simp

/-- Agent whose single execute call succeeds; rollback infrastructure all
succeeds. -/
def cexOkAgent : AgentBehavior :=
  ⟨.database, none, .ok [], fun _ => true, fun _ => none,
    fun _ => .execOk ⟨0, "s1", "u"⟩, fun _ => none, fun _ _ => none⟩

def cexOkOrch : Orchestrator := ⟨[(.database, cexOkAgent)]⟩

def cexDbOneSkillConfig : ExperimentConfig :=
  ⟨"c5", .database, "", [⟨"s1", "", 1⟩], 1000, false, []⟩

/-- C5 counterexample: a plain successful one-skill run emits
`RollbackStarted` (absent from the claimed order), so its trace does not
match `Started, (SkillExecuted)*, DurationWaitBegin?,
(RollbackStepCompleted)*, Failed?, Completed`. -/
theorem C5_counterexample :
    claimedEventOrder (runExperiment cexOkOrch cexDbOneSkillConfig).events
      = false := by decide

/-- Projection of the final report's status field, when a report was
returned. -/
def reportStatus (out : RunOutcome) : Option String :=
  out.result.toOption.map Report.status

/-- C3 (supporting theorem for the missing cancellation feature): no run
of `run_experiment` can report the `failed: cancelled` outcome the claim
requires — the status is `completed` or `failed: <error>` where the error
is built from the execute phase, and no code path produces the string
`cancelled` (the hypotheses only exclude a skill itself emitting that
exact text through the transparent `Other` error). -/
theorem C3_no_cancelled_outcome (o : Orchestrator) (config : ExperimentConfig)
    (a : AgentBehavior) (hg : hmGet o.agents config.target = some a)
    (hv : ∀ inv e, a.validateErr inv = some e → e.display ≠ "cancelled")
    (hc : ∀ n e, a.execCall n = .ctxErr e → e.display ≠ "cancelled") :
    reportStatus (runExperiment o config) ≠ some "failed: cancelled" := by
  rw [runExperiment_eq_some o config a hg]
  cases hi : a.initErr with
  | some e =>
    rw [runWithAgent_eq_init_err a config e hi]
    simp [reportStatus, Except.toOption]
  | none =>
    cases hd : a.discoverRes with
    | error e =>
      rw [runWithAgent_eq_disc_err a config e hi hd]
      simp [reportStatus, Except.toOption]
    | ok disc =>
      rw [runWithAgent_eq_ok a config disc hi hd]
      cases hres : (execSkills a config.skills 0).result with
      | none =>
        show some "completed" ≠ some "failed: cancelled"
        simp
      | some e =>
        show some ("failed: " ++ e.display) ≠ some "failed: cancelled"
        intro hcon
        have hcon' : "failed: " ++ e.display = "failed: cancelled" :=
          Option.some.inj hcon
        have hdisp : e.display = "cancelled" :=
          str_append_left_cancel (hcon'.trans
            (show ("failed: cancelled" : String) = "failed: " ++ "cancelled"
              from by decide))
        rcases execSkills_result_shape a config.skills 0 e hres with
          ⟨name, rfl⟩ | ⟨inv, hval⟩ | ⟨m, e', hcall, rfl⟩ | ⟨name, src, rfl⟩
        · have hlen := congrArg String.length hdisp
          simp only [ChaosErr.display, String.length_append] at hlen
          rw [show ("Configuration error: " : String).length = 21 from rfl,
            show ("Unknown skill: " : String).length = 15 from rfl,
            show ("cancelled" : String).length = 9 from rfl] at hlen
          omega
        · exact hv inv e hval hdisp
        · exact hc m e hcall hdisp
        · have hlen := congrArg String.length hdisp
          simp only [ChaosErr.display, String.length_append] at hlen
          rw [show ("Skill execution failed: " : String).length = 24 from rfl,
            show (" -- " : String).length = 4 from rfl,
            show ("cancelled" : String).length = 9 from rfl] at hlen
          omega

theorem C3_witness :
    reportStatus (runExperiment cexOkOrch cexDbOneSkillConfig)
      ≠ some "failed: cancelled" :=
  C3_no_cancelled_outcome cexOkOrch cexDbOneSkillConfig cexOkAgent rfl
    (fun _ _ h => nomatch h) (fun _ _ h => nomatch h)

theorem podKillRollbackLogs_warn (listResult : Nat → Except String Nat) :
    ∀ (undo : List KilledPodInfo) (n : Nat) (p : KilledPodInfo), p ∈ undo →
      p.hasOwner = false →
      (⟨.warn, p.name, podKillWarnMsg⟩ : LogLine)
        ∈ podKillRollbackLogs listResult n undo := by
  intro undo
  induction undo with
  | nil => intro n p hp; cases hp
  | cons q rest ih =>
    intro n p hp hpo
    simp only [podKillRollbackLogs]
    rcases List.mem_cons.mp hp with rfl | hp2
    · rw [if_neg (by simp [hpo])]
      exact List.mem_cons_self _ _
    · exact List.mem_cons.mpr (Or.inr (ih (n + 1) p hp2 hpo))

/-- C7 (amended): for a pod_kill handle recording an ownerless pod, the
rollback logs a warning for the pod but returns `Ok(())`, so the
orchestrator records the step with `ok = true` and no error message, and
subsequent rollback steps continue. -/
theorem C7_ownerless_pod_rollback :
    (∀ (listResult : Nat → Except String Nat) (undo : List KilledPodInfo),
      (podKillRollback listResult undo).2 = .ok ()
      ∧ ∀ p ∈ undo, p.hasOwner = false →
          (⟨.warn, p.name, podKillWarnMsg⟩ : LogLine)
            ∈ (podKillRollback listResult undo).1)
    ∧ (∀ (a : AgentBehavior) (h : RollbackHandle) (hs : List RollbackHandle)
        (n : Nat), a.hasSkill h.skillName = true → a.rbCtxErr n = none →
        a.rbCall n h = none →
        (rollbackPhase a (h :: hs) n).records
          = ⟨h.skillName, true, none⟩ :: (rollbackPhase a hs (n + 1)).records) := by
  constructor
  · intro listResult undo
    exact ⟨rfl, fun p hp hpo =>
      podKillRollbackLogs_warn listResult undo 0 p hp hpo⟩
  · intro a h hs n hsk hctx hcall
    simp only [rollbackPhase, if_pos hsk, hctx, hcall]
    rfl

def orphanPod : KilledPodInfo := ⟨"orphan-pod", "default", false, none, none⟩

def orphanListFn : Nat → Except String Nat := fun _ => .ok 0

/-- The k8s agent seen during the counterexample run: its rollback oracle
is exactly the modelled `PodKillSkill::rollback` outcome on the orphan
pod's undo state. -/
def podKillAgent : AgentBehavior :=
  ⟨.kubernetes, none, .ok [], fun _ => true, fun _ => none,
    fun _ => .execOk ⟨0, "k8s.pod_kill", "orphan-undo"⟩,
    fun _ => none,
    fun _ _ =>
      match (podKillRollback orphanListFn [orphanPod]).2 with
      | .ok _ => none
      | .error e => some e⟩

def podKillOrch : Orchestrator := ⟨[(.kubernetes, podKillAgent)]⟩

def podKillConfig : ExperimentConfig :=
  ⟨"c7", .kubernetes, "", [⟨"k8s.pod_kill", "", 1⟩], 1000, false, []⟩

/-- C7 counterexample: the rollback of an ownerless-pod handle returns
`Ok(())` with only a warning logged, so the step is recorded with
`ok = true` and no error message — not `ok = false` as claimed. -/
theorem C7_counterexample :
    (podKillRollback orphanListFn [orphanPod]).2 = .ok ()
    ∧ (podKillRollback orphanListFn [orphanPod]).1
      = [⟨.warn, "orphan-pod", podKillWarnMsg⟩]
    ∧ (runExperiment podKillOrch podKillConfig).rollbackRecords
      = [⟨"k8s.pod_kill", true, none⟩] :=
  ⟨rfl, by decide, by decide⟩

theorem C1_witness :
    (runExperiment cexOkOrch cexDbOneSkillConfig).invoked
      = (runExperiment cexOkOrch cexDbOneSkillConfig).log.reverse :=
  C1_rollback_reverse_order cexOkOrch cexDbOneSkillConfig cexOkAgent rfl
    (by decide) (by decide) (fun _ => rfl)

theorem C7_witness :
    (podKillRollback orphanListFn [orphanPod]).2 = .ok ()
    ∧ (⟨.warn, "orphan-pod", podKillWarnMsg⟩ : LogLine)
      ∈ (podKillRollback orphanListFn [orphanPod]).1
    ∧ (rollbackPhase podKillAgent [⟨0, "k8s.pod_kill", "orphan-undo"⟩] 0).records
      = ⟨"k8s.pod_kill", true, none⟩
        :: (rollbackPhase podKillAgent [] (0 + 1)).records :=
  ⟨(C7_ownerless_pod_rollback.1 orphanListFn [orphanPod]).1,
    (C7_ownerless_pod_rollback.1 orphanListFn [orphanPod]).2 orphanPod
      (by decide) rfl,
    C7_ownerless_pod_rollback.2 podKillAgent ⟨0, "k8s.pod_kill", "orphan-undo"⟩
      [] 0 rfl rfl rfl⟩
